import Mathlib

set_option maxRecDepth 100000

/-!
# Verification of the BugSmith patch reconciliation engine

Shallow embedding of the diff/patch subsystem of the BugSmith repository:

* `parsePatch`, `findBestMatch`, `matchesAt`, `calculateMatchScore`,
  `applyHunkToLines`, `applyPatchFuzzy`, `validatePatchFormat`, `applyPatch`
  (from `src/lib/git/applyPatch.ts`);
* `injectHunkLineNumbers` and its header-synthesis block
  (from `src/lib/ai/generatePatch.ts`);
* the apply-fix route handler (from `src/app/api/agent/applyFix/route.ts`)
  and the client retry ladder (from `src/lib/loadEnv.ts`),
  modelled over explicit oracles for the external collaborators
  (git, the model-backed patch generator, the file store).

JavaScript semantics are mirrored explicitly: array `splice` with its
clamping behaviour, single-pass global string replacement, Node `path.join`
normalisation, fractional match scores as exact rationals.
-/

namespace BugSmith

/-! ## JavaScript string primitives -/

/-- `leadMatch needle hay`: `hay` starts with `needle` (character lists). -/
def leadMatch : List Char → List Char → Bool
  | [], _ => true
  | _ :: _, [] => false
  | a :: as, b :: bs => a = b && leadMatch as bs

/-- JS `s.startsWith(pre)`. -/
def jsStartsWith (s pre : String) : Bool :=
  leadMatch pre.toList s.toList

/-- JS `s.trim()`: strip leading and trailing whitespace. -/
def jsTrim (s : String) : String :=
  String.mk (((s.toList.dropWhile Char.isWhitespace).reverse.dropWhile
    Char.isWhitespace).reverse)

/-- Split a character list at every occurrence of `c` (accumulator holds
the current piece reversed). -/
def splitCharGo (c : Char) : List Char → List Char → List String
  | [], cur => [String.mk cur.reverse]
  | x :: xs, cur =>
    if x = c then String.mk cur.reverse :: splitCharGo c xs []
    else splitCharGo c xs (x :: cur)

/-- Index of the first occurrence of `needle` in `hay`, if any
(JS `String.prototype.indexOf`). -/
def findSub (needle : List Char) : List Char → Option Nat
  | [] => if needle.isEmpty then some 0 else none
  | b :: bs =>
    if leadMatch needle (b :: bs) then some 0
    else (findSub needle bs).map (· + 1)

/-- JS `hay.includes(needle)`. -/
def jsIncludes (hay needle : String) : Bool :=
  (findSub needle.toList hay.toList).isSome

/-- JS `hay.indexOf(needle)` (−1 when absent). -/
def jsIndexOf (hay needle : String) : Int :=
  match findSub needle.toList hay.toList with
  | some n => (n : Int)
  | none => -1

/-- Fuelled scan counting non-overlapping occurrences of `needle`, left
to right; the fuel (the hay's length at the top call) only enforces
termination. -/
def countOccurGo (needle : List Char) : Nat → List Char → Nat
  | 0, _ => 0
  | _, [] => 0
  | fuel + 1, b :: bs =>
    if leadMatch needle (b :: bs) then
      1 + countOccurGo needle fuel (bs.drop (needle.length - 1))
    else countOccurGo needle fuel bs

/-- Number of non-overlapping occurrences of `needle`, scanning left to
right (JS `str.match(/needle/g).length`). -/
def countOccur (needle hay : List Char) : Nat :=
  countOccurGo needle hay.length hay

/-- Fuelled single-pass global removal of `needle`. -/
def removeAllGo (needle : List Char) : Nat → List Char → List Char
  | 0, rest => rest
  | _, [] => []
  | fuel + 1, b :: bs =>
    if leadMatch needle (b :: bs) then
      removeAllGo needle fuel (bs.drop (needle.length - 1))
    else b :: removeAllGo needle fuel bs

/-- Single-pass global removal of `needle`
(JS `str.replace(/needle/g, "")` with a fixed pattern). -/
def removeAll (needle hay : List Char) : List Char :=
  removeAllGo needle hay.length hay

/-- JS `str.replace(/\.\./g, "")`. -/
def removeDotDot (s : String) : String :=
  String.mk (removeAll [Char.ofNat 46, Char.ofNat 46] s.toList)

/-- JS `str.replace(/^\/+/, "")`: strip leading slashes. -/
def stripLeadingSlashes (s : String) : String :=
  String.mk (s.toList.dropWhile (· = Char.ofNat 47))

/-- `patch.split("\n")`. -/
def splitLines (s : String) : List String := splitCharGo (Char.ofNat 10) s.toList []

/-! ## Node `path` primitives

Paths are normalised segment-wise, as Node's `path.posix` does for
absolute paths: `.` and empty segments vanish, `..` pops (and is dropped
at the root). -/

/-- Split on `/`. -/
def splitSegs (s : String) : List String := splitCharGo (Char.ofNat 47) s.toList []

/-- Normalise a segment list (absolute-path semantics), accumulator holds
the already-normalised prefix reversed. -/
def normSegs (acc : List String) : List String → List String
  | [] => acc.reverse
  | s :: rest =>
    if s = "" ∨ s = "." then normSegs acc rest
    else if s = ".." then normSegs (acc.drop 1) rest
    else normSegs (s :: acc) rest

/-- Node `path.join(a, b)` for an absolute `a`. -/
def pathJoin (a b : String) : String :=
  "/" ++ String.intercalate "/" (normSegs [] (splitSegs (a ++ "/" ++ b)))

/-- Node `path.resolve(p)` for an already-absolute `p`. -/
def pathResolve (p : String) : String :=
  "/" ++ String.intercalate "/" (normSegs [] (splitSegs p))

/-- Relative segment walk used by Node `path.relative`. -/
def relSegs : List String → List String → List String
  | f :: fs, t :: ts =>
    if f = t then relSegs fs ts
    else List.replicate (fs.length + 1) ".." ++ (t :: ts)
  | [], ts => ts
  | fs, [] => List.replicate fs.length ".."

/-- Node `path.relative(a, b)` for absolute `a`, `b`. -/
def pathRelative (a b : String) : String :=
  String.intercalate "/" (relSegs (normSegs [] (splitSegs a)) (normSegs [] (splitSegs b)))

/-- `segsLead r p`: segment list `r` is a leading part of `p`. -/
def segsLead : List String → List String → Bool
  | [], _ => true
  | _ :: _, [] => false
  | a :: as, b :: bs => a = b && segsLead as bs

/-- The (normalised, absolute) path `p` lies under the root `root`. -/
def underRoot (root p : String) : Bool :=
  segsLead (normSegs [] (splitSegs root)) (normSegs [] (splitSegs p))

/-! ## File-store model

`existsSync` / `readFileSync` / `writeFileSync` / `unlinkSync` over an
association list of files plus a directory set, with an access trace. -/

/-- External effects performed by the engine. -/
inductive EngineStep where
  | fileRead (p : String)
  | fileWrite (p : String)
  | fileDelete (p : String)
  | gitApply
  | gitStatus
  | genPatch
  | commit
  | push
  deriving Repr, DecidableEq

/-- In-memory file store. -/
structure SimFS where
  files : List (String × String)
  dirs : List String
  deriving Repr, DecidableEq

def fsLookup (fs : SimFS) (p : String) : Option String :=
  (fs.files.find? (fun e => e.1 = p)).map (·.2)

def fsExists (fs : SimFS) (p : String) : Bool :=
  (fsLookup fs p).isSome || fs.dirs.contains p

def fsWrite (fs : SimFS) (p c : String) : SimFS :=
  { fs with files := (p, c) :: fs.files.filter (fun e => e.1 ≠ p) }

def fsUnlink (fs : SimFS) (p : String) : SimFS :=
  { fs with files := fs.files.filter (fun e => e.1 ≠ p) }

/-! ## DiffParser (`parsePatch` in `src/lib/git/applyPatch.ts`) -/

/-- A parsed `@@` hunk (interface `ParsedHunk`). -/
structure ParsedHunk where
  oldStart : Nat
  oldCount : Nat
  newStart : Nat
  newCount : Nat
  lines : List String
  deriving Repr, DecidableEq

/-- A parsed per-file patch (interface `ParsedFilePatch`). -/
structure ParsedFilePatch where
  filePath : String
  hunks : List ParsedHunk
  deriving Repr, DecidableEq

/-- Strip an expected literal `pre` from the front of `cs`. -/
def stripLead (pre cs : List Char) : Option (List Char) :=
  match pre, cs with
  | [], rest => some rest
  | _ :: _, [] => none
  | p :: ps, c :: rest => if p = c then stripLead ps rest else none

/-- Parse a non-empty run of decimal digits, returning its value and the rest. -/
def parseDigits (cs : List Char) : Option (Nat × List Char) :=
  let digs := cs.takeWhile Char.isDigit
  if digs.isEmpty then none
  else some (digs.foldl (fun n c => 10 * n + (c.toNat - 48)) 0, cs.drop digs.length)

/-- Parse an optional `,count` group; a missing group yields 1
(`hunkMatch[2] ? parseInt(...) : 1`). -/
def parseOptCount (cs : List Char) : Nat × List Char :=
  match cs with
  | c :: rest =>
    if c = Char.ofNat 44 then
      match parseDigits rest with
      | some (n, rest') => (n, rest')
      | none => (1, cs)
    else (1, cs)
  | [] => (1, cs)

/-- The hunk-header regex `^@@ -(\d+)(?:,(\d+))? \+(\d+)(?:,(\d+))? @@`:
returns `(oldStart, oldCount, newStart, newCount)` when the line matches. -/
def parseHunkHeader (line : String) : Option (Nat × Nat × Nat × Nat) :=
  match stripLead "@@ -".toList line.toList with
  | none => none
  | some r1 =>
    match parseDigits r1 with
    | none => none
    | some (oldStart, r2) =>
      let (oldCount, r3) := parseOptCount r2
      match stripLead " +".toList r3 with
      | none => none
      | some r4 =>
        match parseDigits r4 with
        | none => none
        | some (newStart, r5) =>
          let (newCount, r6) := parseOptCount r5
          match stripLead " @@".toList r6 with
          | none => none
          | some _ => some (oldStart, oldCount, newStart, newCount)

/-- The flush block (`if (currentFile && currentHunk) push hunk; if
(currentFile) push file`), run at a new `--- a/` header and at the end. -/
def flushPF (currentFile : Option ParsedFilePatch) (currentHunk : Option ParsedHunk)
    (files : List ParsedFilePatch) : List ParsedFilePatch :=
  match currentFile, currentHunk with
  | some f, some h => { f with hunks := f.hunks ++ [h] } :: files
  | some f, none => f :: files
  | none, _ => files

/-- The hunk-header block's flush of the previous hunk into the active
file (`if (currentHunk && currentFile) currentFile.hunks.push(...)`). -/
def pushHunk (currentFile : Option ParsedFilePatch) (currentHunk : Option ParsedHunk) :
    Option ParsedFilePatch :=
  match currentFile, currentHunk with
  | some f, some h => some { f with hunks := f.hunks ++ [h] }
  | cf, _ => cf

/-- One step of `parsePatch`'s scan, with the trailing flush.
State: remaining lines, active file, active hunk, files accumulator. -/
def parsePatchLoop : List String → Option ParsedFilePatch → Option ParsedHunk →
    List ParsedFilePatch → List ParsedFilePatch
  | [], currentFile, currentHunk, files =>
    (flushPF currentFile currentHunk files).reverse
  | line :: rest, currentFile, currentHunk, files =>
    if jsStartsWith line "--- a/" then
      parsePatchLoop rest (some ⟨jsTrim (line.drop 6), []⟩) none
        (flushPF currentFile currentHunk files)
    else if jsStartsWith line "+++ b/" then
      parsePatchLoop rest currentFile currentHunk files
    else
      match parseHunkHeader line with
      | some (os, oc, ns, nc) =>
        parsePatchLoop rest (pushHunk currentFile currentHunk)
          (some ⟨os, oc, ns, nc, []⟩) files
      | none =>
        if currentHunk.isSome &&
            (jsStartsWith line "+" || jsStartsWith line "-" || jsStartsWith line " " || line = "") then
          parsePatchLoop rest currentFile
            (currentHunk.map (fun h => { h with lines := h.lines ++ [line] })) files
        else
          parsePatchLoop rest currentFile currentHunk files

/-- `parsePatch(patch)`: parse a unified diff into structured data. -/
def parsePatch (patch : String) : List ParsedFilePatch :=
  parsePatchLoop (splitLines patch) none none []

/-- A stored hunk-body line: `+`/`-`/space prefixed or empty. -/
def lineOK (l : String) : Prop :=
  jsStartsWith l "+" = true ∨ jsStartsWith l "-" = true ∨
    jsStartsWith l " " = true ∨ l = ""

/-- Every line of the hunk's buffer is a stored body line. -/
def hunkOK (h : ParsedHunk) : Prop := ∀ l ∈ h.lines, lineOK l

/-- Every hunk of the file patch satisfies `hunkOK`. -/
def fileOK (f : ParsedFilePatch) : Prop := ∀ h ∈ f.hunks, hunkOK h

/-! ## FuzzyLocator (`findBestMatch` and friends in `src/lib/git/applyPatch.ts`)

Scores are JavaScript numbers built from `1` and `0.8`; we model them as
exact rationals (`1` and `4/5`), which agrees with the float semantics on
every comparison the code performs. -/

/-- The contribution of one hunk line to `searchLines`: context and removed
lines (minus their marker) are searched for, added lines are skipped. -/
def searchLineOf (l : String) : Option String :=
  if jsStartsWith l " " then some (l.drop 1)
  else if jsStartsWith l "-" then some (l.drop 1)
  else none

/-- The `searchLines` array built at the top of `findBestMatch`. -/
def buildSearchLines (hunkLines : List String) : List String :=
  hunkLines.filterMap searchLineOf

/-- Pointwise comparison loop of `matchesAt`. -/
def matchesFrom (fl : List String) : Nat → List String → Bool
  | _, [] => true
  | p, s :: rest => fl.getD p "" = s && matchesFrom fl (p + 1) rest

/-- `matchesAt(fileLines, searchLines, pos)`. -/
def matchesAt (fl sl : List String) (pos : Int) : Bool :=
  if pos < 0 || pos + sl.length > fl.length then false
  else matchesFrom fl pos.toNat sl

/-- Scoring loop of `calculateMatchScore`: exact match 1, trimmed match
0.8, mismatch 0; the loop breaks once the file runs out. -/
def scoreFrom (fl : List String) : Nat → List String → ℚ
  | _, [] => 0
  | p, s :: rest =>
    if fl.length ≤ p then 0
    else
      (if fl.getD p "" = s then (1 : ℚ)
       else if jsTrim (fl.getD p "") = jsTrim s then (4 : ℚ) / 5
       else 0) + scoreFrom fl (p + 1) rest

/-- `calculateMatchScore(fileLines, searchLines, pos)` (`pos ≥ 0` at every
call site). -/
def calculateMatchScore (fl sl : List String) (pos : Int) : ℚ :=
  scoreFrom fl pos.toNat sl

/-- One candidate position of the fuzzy search: skip when out of range,
return the position outright on a perfect score, otherwise update the
running best `(score, pos)` state. (The source updates the best state
before the perfect-score return, but the update is discarded by that
return, so checking the perfect score first is observationally
identical.) -/
def tryPos (fl sl : List String) (pos : Int) (st : ℚ × Int) : (ℚ × Int) ⊕ Int :=
  if pos < 0 || pos > (fl.length : Int) - (sl.length : Int) then Sum.inl st
  else if calculateMatchScore fl sl pos = (sl.length : ℚ) then Sum.inr pos
  else if st.1 < calculateMatchScore fl sl pos then
    Sum.inl (calculateMatchScore fl sl pos, pos)
  else Sum.inl st

/-- The `offset` loop of `findBestMatch`: for each offset the position
before the expected start is tried, then the one after. -/
def fuzzyScanGo (fl sl : List String) (e : Int) : List Nat → ℚ × Int → Int
  | [], st => if (sl.length : ℚ) * (1 / 2) ≤ st.1 then st.2 else e
  | offset :: rest, st =>
    match tryPos fl sl (e - (offset : Int)) st with
    | Sum.inr p => p
    | Sum.inl st1 =>
      match tryPos fl sl (e + (offset : Int)) st1 with
      | Sum.inr p => p
      | Sum.inl st2 => fuzzyScanGo fl sl e rest st2

/-- `findBestMatch(fileLines, hunk)`: exact match at the expected position,
else a ±50-line scored scan, else the original position. -/
def findBestMatch (fl : List String) (h : ParsedHunk) : Int :=
  let sl := buildSearchLines h.lines
  if sl.isEmpty then (h.oldStart : Int) - 1
  else
    let e := (h.oldStart : Int) - 1
    if matchesAt fl sl e then e
    else fuzzyScanGo fl sl e (List.range 51) (-1, e)

/-! ## PatchApplicator (`applyHunkToLines` in `src/lib/git/applyPatch.ts`) -/

/-- JS `Array.prototype.splice(start, deleteCount, ...items)` on a list,
with JS index clamping. -/
def jsSplice (l : List α) (start : Int) (delCount : Nat) (items : List α) : List α :=
  let s : Nat :=
    if start < 0 then (max ((l.length : Int) + start) 0).toNat
    else min start.toNat l.length
  l.take s ++ items ++ l.drop (s + delCount)

/-- The line walk of `applyHunkToLines`: collects `linesToRemove` (dead
state in the source, kept for fidelity) and `linesToAdd`, both accumulated
in reverse. -/
def applyLoop (result : List String) :
    List String → Int → List Nat → List String → List Nat × List String
  | [], _, rem, adds => (rem.reverse, adds.reverse)
  | line :: rest, fileIndex, rem, adds =>
    if jsStartsWith line " " then
      let contextLine := line.drop 1
      let adds :=
        if fileIndex < (result.length : Int) then
          let fileLine := result.getD fileIndex.toNat ""
          if fileLine ≠ contextLine ∧ jsTrim fileLine = jsTrim contextLine then
            fileLine :: adds
          else contextLine :: adds
        else contextLine :: adds
      applyLoop result rest (fileIndex + 1) rem adds
    else if jsStartsWith line "-" then
      applyLoop result rest (fileIndex + 1) (fileIndex.toNat :: rem) adds
    else if jsStartsWith line "+" then
      applyLoop result rest fileIndex rem (line.drop 1 :: adds)
    else
      applyLoop result rest fileIndex rem adds

/-- `applyHunkToLines(fileLines, hunk)`. -/
def applyHunkToLines (fileLines : List String) (hunk : ParsedHunk) : List String :=
  let matchPos := findBestMatch fileLines hunk
  let adds := (applyLoop fileLines hunk.lines matchPos [] []).2
  jsSplice fileLines matchPos hunk.oldCount adds

/-! ## Direct fuzzy application (`applyPatchFuzzy`) -/

/-- `{success, modifiedFiles, error?}`. -/
structure ApplyPatchResult where
  success : Bool
  modifiedFiles : List String
  error : Option String
  deriving Repr, DecidableEq

/-- Outcome of a run against the file store: final store, access trace,
result. -/
structure EngineRun where
  fs : SimFS
  trace : List EngineStep
  result : ApplyPatchResult
  deriving Repr, DecidableEq

/-- The content `applyPatchFuzzy` writes for one `ParsedFilePatch`:
read, split, fold the hunks, re-join. -/
def fuzzyFileOutput (fs : SimFS) (repoPath : String) (fp : ParsedFilePatch) : String :=
  let content := (fsLookup fs (pathJoin repoPath fp.filePath)).getD ""
  String.intercalate "\n" (fp.hunks.foldl applyHunkToLines (splitLines content))

/-- The per-file loop of `applyPatchFuzzy`: a missing file aborts with
`modifiedFiles = []`, otherwise the file is rewritten in place and the
loop continues. -/
def applyPatchFuzzyGo (repoPath : String) :
    List ParsedFilePatch → SimFS → List EngineStep → List String → EngineRun
  | [], fs, tr, mods => ⟨fs, tr, ⟨true, mods.reverse, none⟩⟩
  | fp :: rest, fs, tr, mods =>
    let filePath := pathJoin repoPath fp.filePath
    if fsExists fs filePath then
      let fs' := fsWrite fs filePath (fuzzyFileOutput fs repoPath fp)
      applyPatchFuzzyGo repoPath rest fs'
        (tr ++ [EngineStep.fileRead filePath, EngineStep.fileWrite filePath])
        (fp.filePath :: mods)
    else
      ⟨fs, tr, ⟨false, [], some ("File not found: " ++ fp.filePath)⟩⟩

/-- `applyPatchFuzzy(repoPath, patch)`. -/
def applyPatchFuzzy (repoPath patch : String) (fs : SimFS) : EngineRun :=
  applyPatchFuzzyGo repoPath (parsePatch patch) fs [] []

/-! ## Format validation and the native apply path (`applyPatch`) -/

/-- `validatePatchFormat(patch)`: error message when invalid, `none` when
valid. -/
def validatePatchFormat (patch : String) : Option String :=
  if patch = "" ∨ jsTrim patch = "" then some "Patch is empty"
  else if ¬ (jsIncludes patch "--- a/" ∧ jsIncludes patch "+++ b/") then
    some "Invalid patch format: missing file headers (--- a/ or +++ b/)"
  else if ¬ jsIncludes patch "@@" then
    some "Invalid patch format: missing hunk headers (@@)"
  else
    let firstFileHeader := jsIndexOf patch "--- a/"
    let firstHunkHeader := jsIndexOf patch "@@"
    if firstHunkHeader ≠ -1 ∧ firstHunkHeader < firstFileHeader then
      some "Invalid patch format: hunk headers appear before file headers"
    else
      let fileHeaderCount := countOccur "--- a/".toList patch.toList
      let fileHeaderPlusCount := countOccur "+++ b/".toList patch.toList
      if fileHeaderCount ≠ fileHeaderPlusCount then
        some ("Invalid patch format: mismatched file headers (" ++
          toString fileHeaderCount ++ " --- a/ vs " ++
          toString fileHeaderPlusCount ++ " +++ b/)")
      else none

/-- The path-sanitisation loop of `applyPatch`: every `--- a/` / `+++ b/`
line contributes its path with all `..` removed and leading slashes
stripped, after a (vacuous, see `c3`) traversal check against the
resolved repo root. -/
def collectFilePaths (absoluteRepoPath : String) :
    List String → List String → Except String (List String)
  | [], acc => Except.ok acc.reverse
  | line :: rest, acc =>
    if jsStartsWith line "--- a/" ∨ jsStartsWith line "+++ b/" then
      let filePath := jsTrim (line.drop 6)
      if filePath ≠ "" ∧ filePath ≠ "/dev/null" then
        let normalized := stripLeadingSlashes (removeDotDot filePath)
        let fullPath := pathJoin absoluteRepoPath normalized
        let relativePath := pathRelative absoluteRepoPath fullPath
        if jsStartsWith relativePath ".." ∨ jsIncludes relativePath ".." then
          Except.error ("Invalid file path in patch: " ++ filePath ++
            ". Path traversal detected.")
        else collectFilePaths absoluteRepoPath rest (normalized :: acc)
      else collectFilePaths absoluteRepoPath rest acc
    else collectFilePaths absoluteRepoPath rest acc

/-- Oracle outcomes for the external git collaborator. -/
structure GitWorld where
  gitApplyOk : Bool
  gitApplyErr : String
  statusOutput : String
  deriving Repr, DecidableEq

/-- An `ApplyPatchResult` failure with no modified files. -/
def failResult (e : String) : ApplyPatchResult := ⟨false, [], some e⟩

/-- Reject-file scan (run after `git apply`): returns the file paths whose
`.rej` artifact exists, and the store after the cleanup unlinks.
`extraRej` mirrors the success branch's slip of unlinking
`rejectFile + ".rej"` instead of `rejectFile`. -/
def scanRejects (absRepo : String) (filePaths : List String) (fs : SimFS)
    (extraRej : Bool) : List String × SimFS :=
  filePaths.foldl
    (fun (st : List String × SimFS) fp =>
      let rejectFile := pathJoin absRepo (fp ++ ".rej")
      if fsExists st.2 rejectFile then
        let target := if extraRej then rejectFile ++ ".rej" else rejectFile
        (st.1 ++ [fp], fsUnlink st.2 target)
      else st)
    ([], fs)

/-- The `git status --porcelain` post-processing of the success branch. -/
def modifiedFromStatus (statusOutput : String) (filePaths : List String) :
    List String :=
  ((splitLines statusOutput).filter (fun l => jsTrim l ≠ ""))
    |>.map (fun l => jsTrim (l.drop 3))
    |>.filter (fun file =>
      filePaths.contains file || filePaths.any (fun fp => jsIncludes file fp))

/-- `applyPatch(repoPath, patch)`: validations, native `git apply` (oracle
`w`), reject scan, and the fuzzy fallback on native failure; the temporary
patch file is cleaned up in every branch. -/
def applyPatchM (w : GitWorld) (fs : SimFS) (repoPath patch : String) : EngineRun :=
  if ¬ fsExists fs repoPath then
    ⟨fs, [], failResult ("Repository path does not exist: " ++ repoPath)⟩
  else if ¬ fsExists fs (pathJoin repoPath ".git") then
    ⟨fs, [], failResult ("Not a valid git repository: " ++ repoPath)⟩
  else
    match validatePatchFormat patch with
    | some formatError => ⟨fs, [], failResult ("Patch was invalid: " ++ formatError)⟩
    | none =>
      let absoluteRepoPath := pathResolve repoPath
      match collectFilePaths absoluteRepoPath (splitLines patch) [] with
      | Except.error e => ⟨fs, [], failResult e⟩
      | Except.ok filePaths =>
        let tempPatchFile := pathJoin absoluteRepoPath ".bugsmith-patch.tmp"
        let fs1 := fsWrite fs tempPatchFile patch
        let tr1 := [EngineStep.fileWrite tempPatchFile, EngineStep.gitApply]
        let afterGit : EngineRun :=
          if w.gitApplyOk then
            let (rejectFiles, fs2) := scanRejects absoluteRepoPath filePaths fs1 true
            if rejectFiles ≠ [] then
              ⟨fs2, tr1, failResult ("Patch failed to apply. Some hunks could not be applied for files: " ++
                String.intercalate ", " rejectFiles ++ ".")⟩
            else
              let modifiedFiles := modifiedFromStatus w.statusOutput filePaths
              ⟨fs2, tr1 ++ [EngineStep.gitStatus],
                ⟨true, if modifiedFiles ≠ [] then modifiedFiles else filePaths, none⟩⟩
          else
            let (_, fs2) := scanRejects absoluteRepoPath filePaths fs1 false
            let errorMessage := w.gitApplyErr
            let fz := applyPatchFuzzy absoluteRepoPath patch fs2
            if fz.result.success then
              ⟨fz.fs, tr1 ++ fz.trace, fz.result⟩
            else
              ⟨fz.fs, tr1 ++ fz.trace,
                failResult ("Patch failed to apply. git apply error: " ++ errorMessage ++
                  ". Fuzzy fallback error: " ++ (fz.result.error.getD "undefined"))⟩
        let fsFinal :=
          if fsExists afterGit.fs tempPatchFile then fsUnlink afterGit.fs tempPatchFile
          else afterGit.fs
        ⟨fsFinal, afterGit.trace ++ [EngineStep.fileDelete tempPatchFile], afterGit.result⟩

/-! ## HeaderSynthesizer (`injectHunkLineNumbers` in `src/lib/ai/generatePatch.ts`)

The live pipeline (`generatePatch`) rewrites bare `@@` hunk headers into
`@@ -start,count +start,count @@` with this function; the collection of
the hunk's lines, the count tally, the anchor search and the header
emission are the contiguous blocks of its bare-`@@` branch. -/

/-- A line that terminates the hunk-line collection
(`hunkLine.startsWith("@@") || ...("--- a/") || ...("+++ b/")`). -/
def isHunkBoundary (l : String) : Bool :=
  jsStartsWith l "@@" || jsStartsWith l "--- a/" || jsStartsWith l "+++ b/"

/-- Lines of the current hunk: everything up to the next boundary. -/
def collectHunkLines (rest : List String) : List String :=
  rest.takeWhile (fun l => !isHunkBoundary l)

/-- `if (!firstContextLine) firstContextLine = ...`: JS truthiness means
the anchor is overwritten while it is `null` **or** the empty string, so
an empty-text anchor does not stick. -/
def setAnchor (c : Option String) (t : String) : Option String :=
  if c.getD "" = "" then some t else c

/-- One step of the count/anchor tally over `(oldCount, newCount,
firstContextLine)`. -/
def tallyStep : Nat × Nat × Option String → String → Nat × Nat × Option String
  | (o, n, c), l =>
  if jsStartsWith l "-" ∧ ¬ jsStartsWith l "---" then
    (o + 1, n, setAnchor c (l.drop 1))
  else if jsStartsWith l "+" ∧ ¬ jsStartsWith l "+++" then (o, n + 1, c)
  else if jsStartsWith l " " then (o + 1, n + 1, setAnchor c (l.drop 1))
  else if jsTrim l ≠ "" then (o + 1, n + 1, setAnchor c l)
  else (o, n, c)

/-- The tally loop (`for (const hLine of hunkLines) ...`). -/
def tallyHunkLines (ls : List String) : Nat × Nat × Option String :=
  ls.foldl tallyStep (0, 0, none)

/-- The anchor search: first exact-or-trimmed match of the first
context/removed line, else line 1. -/
def synthStartLine (fileLines : List String) (firstContextLine : Option String) : Nat :=
  match firstContextLine with
  | some c =>
    if c ≠ "" ∧ 0 < fileLines.length then
      match fileLines.findIdx? (fun fl => fl = c || jsTrim fl = jsTrim c) with
      | some idx => idx + 1
      | none => 1
    else 1
  | none => 1

/-- `` `@@ -${startLine},${oldCount} +${startLine},${newCount} @@` ``. -/
def mkHunkHeader (startLine oldCount newCount : Nat) : String :=
  "@@ -" ++ toString startLine ++ "," ++ toString oldCount ++
    " +" ++ toString startLine ++ "," ++ toString newCount ++ " @@"

/-- The header synthesised for a bare `@@` given the target file's lines
and the remaining patch lines. -/
def synthesizeHeader (fileLines rest : List String) : String :=
  let seg := collectHunkLines rest
  let t := tallyHunkLines seg
  mkHunkHeader (synthStartLine fileLines t.2.2) t.1 t.2.1

/-- Main loop of `injectHunkLineNumbers`: tracks the current file, its
lines, and whether the scan is inside a hunk; bare `@@` headers are
replaced by synthesised ones and unprefixed in-hunk lines gain a space. -/
def injectLoop (fs : SimFS) (repoPath : String) :
    List String → Option String → List String → Bool → List String → List String
  | [], _, _, _, acc => acc.reverse
  | line :: rest, currentFile, fileLines, inHunk, acc =>
    if jsStartsWith line "--- a/" then
      let cf := jsTrim (line.drop 6)
      let fileLines' :=
        if cf ≠ "" then
          if fsExists fs (pathJoin repoPath cf) then
            splitLines ((fsLookup fs (pathJoin repoPath cf)).getD "")
          else []
        else fileLines
      injectLoop fs repoPath rest (some cf) fileLines' false (line :: acc)
    else if jsStartsWith line "+++ b/" then
      injectLoop fs repoPath rest currentFile fileLines inHunk (line :: acc)
    else if (jsTrim line = "@@" ∨ line = "@@") ∧ currentFile.getD "" ≠ "" then
      injectLoop fs repoPath rest currentFile fileLines true
        (synthesizeHeader fileLines rest :: acc)
    else if jsStartsWith line "@@" then
      injectLoop fs repoPath rest currentFile fileLines true (line :: acc)
    else if inHunk then
      if jsStartsWith line "+" || jsStartsWith line "-" || jsStartsWith line " " then
        injectLoop fs repoPath rest currentFile fileLines inHunk (line :: acc)
      else if line = "" then
        injectLoop fs repoPath rest currentFile fileLines inHunk (" " :: acc)
      else
        injectLoop fs repoPath rest currentFile fileLines inHunk ((" " ++ line) :: acc)
    else
      injectLoop fs repoPath rest currentFile fileLines inHunk (line :: acc)

/-- `injectHunkLineNumbers(patch, repoPath)` over the file-store model. -/
def injectHunkLineNumbers (patch repoPath : String) (fs : SimFS) : String :=
  if patch = "" then ""
  else String.intercalate "\n" (injectLoop fs repoPath (splitLines patch) none [] false [])

/-! Claim-side reformulations used to state C4/C5 against the synthesiser. -/

/-- The old-file text of a hunk line under the spec's classification
(`+` added, `-` removed, space or no prefix context). -/
def specHunkOldText (l : String) : Option String :=
  if jsStartsWith l "+" then none
  else if jsStartsWith l "-" then some (l.drop 1)
  else if jsStartsWith l " " then some (l.drop 1)
  else some l

/-- C4's reading: the first Context/Removed line of the hunk occurring
verbatim in the file, mapped to its 1-based first position. -/
def claimC4oldStart (fl seg : List String) : Option Nat :=
  match (seg.filterMap specHunkOldText).find? (fun t => fl.contains t) with
  | some t => (fl.findIdx? (fun x => x = t)).map (· + 1)
  | none => none

/-- The effective anchor of a hunk, stated independently of the fold:
the first context/removed line with non-empty text; an empty-text
candidate (a bare `-` or a lone space line) is held only until the next
candidate overwrites it, because JS `if (!firstContextLine)` treats the
empty string as unset. -/
def firstAnchorText : List String → Option String
  | [] => none
  | l :: rest =>
    if jsStartsWith l "-" ∧ ¬ jsStartsWith l "---" then
      if l.drop 1 = "" then (firstAnchorText rest).orElse (fun _ => some "")
      else some (l.drop 1)
    else if jsStartsWith l "+" ∧ ¬ jsStartsWith l "+++" then firstAnchorText rest
    else if jsStartsWith l " " then
      if l.drop 1 = "" then (firstAnchorText rest).orElse (fun _ => some "")
      else some (l.drop 1)
    else if jsTrim l ≠ "" then some l
    else firstAnchorText rest

/-- Lines the synthesiser counts towards `oldCount`. -/
def isOldCounted (l : String) : Bool :=
  if jsStartsWith l "-" && !jsStartsWith l "---" then true
  else if jsStartsWith l "+" && !jsStartsWith l "+++" then false
  else if jsStartsWith l " " then true
  else jsTrim l != ""

/-- Lines the synthesiser counts towards `newCount`. -/
def isNewCounted (l : String) : Bool :=
  if jsStartsWith l "-" && !jsStartsWith l "---" then false
  else if jsStartsWith l "+" && !jsStartsWith l "+++" then true
  else if jsStartsWith l " " then true
  else jsTrim l != ""

/-! ## EscalationController, server side
(`POST` in `src/app/api/agent/applyFix/route.ts`)

The handler destructures `{repo, repoPath, branchName, issue, preview,
regenerate}` from the request body; external collaborators (file scan,
model-backed patch generator, git, commit, push) are supplied as oracle
values. -/

/-- The apply-fix request body. `useFuzzy` is what the client's retry
ladder sends on its second attempt. -/
structure RouteBody where
  repo : String
  repoPath : String
  branchName : String
  hasIssue : Bool
  preview : Bool
  regenerate : Bool
  useFuzzy : Bool
  deriving Repr, DecidableEq

/-- Oracle outcomes for the route's collaborators. -/
structure RouteDeps where
  relevantFiles : List String
  genOk : Bool
  genErr : String
  generated : String
  git : GitWorld
  fs : SimFS
  commitOk : Bool
  commitHash : String
  commitMsg : String
  pushOk : Bool
  pushMsg : String
  deriving Repr, DecidableEq

/-- The JSON response body (fields the handler sets). -/
structure RouteResponse where
  success : Bool
  error : Option String
  patch : Option String
  modifiedFiles : List String
  commitHash : Option String
  pushed : Option Bool
  status : Nat
  deriving Repr, DecidableEq

/-- Keep first occurrences (`self.indexOf(value) === index`). -/
def dedupeGo (seen : List String) : List String → List String
  | [] => []
  | x :: xs =>
    if seen.contains x then dedupeGo seen xs
    else x :: dedupeGo (x :: seen) xs

/-- The preview branch's file-list extraction from the patch text. -/
def previewFileList (patch : String) : List String :=
  dedupeGo []
    ((((splitLines patch).filter
        (fun l => jsStartsWith l "--- a/" || jsStartsWith l "+++ b/"))
      |>.map (fun l => l.drop 6))
      |>.filter (fun p => p ≠ "" && !jsStartsWith p "/dev/null"))

/-- The `POST` handler: validations, file scan, patch generation, then
either preview or apply → commit → push, with the trace of collaborator
invocations. -/
def routePOST (body : RouteBody) (d : RouteDeps) : RouteResponse × List EngineStep :=
  if body.repo = "" ∨ body.repoPath = "" ∨ body.branchName = "" ∨ ¬ body.hasIssue then
    (⟨false, some "Missing required fields: repo, repoPath, branchName, and issue are required",
      none, [], none, none, 400⟩, [])
  else if d.relevantFiles.isEmpty then
    (⟨false, some "No relevant code files found in repository", none, [], none, none, 200⟩, [])
  else if ¬ d.genOk then
    (⟨false, some ("Failed to generate patch: " ++ d.genErr), none, [], none, none, 500⟩,
      [EngineStep.genPatch])
  else
    let patch := d.generated
    if body.preview then
      (⟨true, none, some patch, previewFileList patch, none, none, 200⟩, [EngineStep.genPatch])
    else
      let run := applyPatchM d.git d.fs body.repoPath patch
      let tr := EngineStep.genPatch :: run.trace
      if ¬ run.result.success then
        (⟨false, some ((run.result.error).getD "Failed to apply patch"), some patch, [],
          none, none, 500⟩, tr)
      else if run.result.modifiedFiles.isEmpty then
        (⟨true, none, some patch, [], none, some false, 200⟩, tr)
      else if ¬ d.commitOk then
        (⟨false, some ("Failed to commit changes: " ++ d.commitMsg), some patch,
          run.result.modifiedFiles, none, none, 500⟩, tr ++ [EngineStep.commit])
      else if ¬ d.pushOk then
        (⟨false, some ("Failed to push branch: " ++ d.pushMsg), some patch,
          run.result.modifiedFiles, some d.commitHash, some false, 500⟩,
          tr ++ [EngineStep.commit, EngineStep.push])
      else
        (⟨true, none, some patch, run.result.modifiedFiles, some d.commitHash, some true, 200⟩,
          tr ++ [EngineStep.commit, EngineStep.push])

/-! ## EscalationController, client side
(the apply-retry loop of `runAgent` in `src/lib/loadEnv.ts`)

`maxRetries = 3`; each iteration posts to the apply-fix route and logs;
exhaustion emits the manual-remediation checklist, records a history
entry with an empty file list, and sets the terminal error state. -/

/-- Outcome of one `fetch("/api/agent/applyFix")` round trip. -/
structure AttemptOutcome where
  ok : Bool
  error : String
  deriving Repr, DecidableEq

/-- Terminal artifacts of the exhaustion branch. -/
structure RetryTerminal where
  exhaustionLogs : List String
  thought : String
  historyFiles : List String
  historyError : String
  stateErrorMessage : String
  deriving Repr, DecidableEq, Inhabited

/-- Result of the retry loop: the full log stream, whether a patch was
applied, and the exhaustion artifacts when all attempts failed. -/
structure RetryRun where
  logs : List String
  applied : Bool
  exhaustion : Option RetryTerminal
  deriving Repr, DecidableEq

/-- The canned manual-remediation checklist logged on exhaustion. -/
def exhaustionChecklist : List String :=
  ["[INFO] Suggested manual fixes:",
   "  1. Review the patch manually and apply changes",
   "  2. Check for merge conflicts or file permission issues",
   "  3. Verify the issue description matches the codebase state",
   "  4. Try applying the patch with: git apply --3way patch.diff"]

/-- The `while (!patchApplied && attempt < maxRetries)` loop;
`outcomes i` is the response of the (i+1)-st POST. -/
def retryGo (outcomes : Nat → AttemptOutcome) : Nat → Nat → List String → RetryRun
  | 0, _, logs => ⟨logs, false, none⟩
  | fuel + 1, attempt, logs =>
    let attempt := attempt + 1
    let logs := logs ++
      [if 1 < attempt then "[INFO] Retry attempt " ++ toString attempt ++ "/3..."
       else "[INFO] Applying patch..."]
    let oc := outcomes (attempt - 1)
    if oc.ok then
      ⟨logs ++
        (if 1 < attempt then
          ["[SUCCESS] Patch applied successfully on retry attempt " ++ toString attempt]
         else []),
        true, none⟩
    else if attempt < 3 then
      let logs := logs ++
        ["[WARN] Patch application failed (attempt " ++ toString attempt ++ "/3): " ++ oc.error] ++
        (if attempt = 2 then ["[INFO] Retrying with fuzzy matching enabled..."]
         else if attempt = 3 then ["[INFO] Regenerating patch and retrying..."]
         else [])
      retryGo outcomes fuel attempt logs
    else
      let ex := "[ERROR] Patch application failed after 3 attempts. Manual intervention required." ::
        exhaustionChecklist
      ⟨logs ++ ex, false,
        some ⟨ex,
          "Failed to apply patch after 3 attempts. Manual intervention required. Last error: " ++ oc.error,
          [], oc.error,
          "Patch application failed after 3 attempts. Consider manual fixes."⟩⟩

/-- The retry ladder, starting at attempt 0 with an empty log. -/
def runRetryLoop (outcomes : Nat → AttemptOutcome) : RetryRun :=
  retryGo outcomes 3 0 []

/-- Everything the exhaustion branch surfaces: its log lines, the step
thought, the terminal state error, and the history entry's error text. -/
def terminalSurfaced (t : RetryTerminal) : List String :=
  t.exhaustionLogs ++ [t.thought, t.stateErrorMessage, t.historyError]

/-- `subOccurs needle hay`: `needle` occurs in `hay`. -/
def subOccurs (needle hay : String) : Bool :=
  (findSub needle.toList hay.toList).isSome

/-! ## Claim-side description of the applicator's line walk (C7)

Stated as the spec words it: a Context line is emitted, preferring the
file's own text on a whitespace-only divergence; a Removed line advances
the cursor silently; an Added line is emitted without advancing. -/

/-- Context reconciliation: trust the file's whitespace. -/
def reconcileContext (fl : List String) (cursor : Int) (c : String) : String :=
  if cursor < (fl.length : Int) then
    let f := fl.getD cursor.toNat ""
    if f ≠ c ∧ jsTrim f = jsTrim c then f else c
  else c

/-- The emitted replacement block of a hunk, per the claim's walk. -/
def specEmit (fl : List String) : List String → Int → List String
  | [], _ => []
  | l :: rest, cursor =>
    if jsStartsWith l " " then
      reconcileContext fl cursor (l.drop 1) :: specEmit fl rest (cursor + 1)
    else if jsStartsWith l "-" then specEmit fl rest (cursor + 1)
    else if jsStartsWith l "+" then l.drop 1 :: specEmit fl rest cursor
    else specEmit fl rest cursor

/-! ## Concrete instances used in witnesses and counterexamples -/

/-- Request body of the ladder's second attempt (`useFuzzy: attempt === 2`). -/
def attempt2Body : RouteBody :=
  ⟨"octo/repo", "/repo", "bugfix-1", true, false, false, true⟩

/-- A patch renaming `x` to `y` in `f1`. -/
def c1patch : String := "--- a/f1\n+++ b/f1\n@@ -1,1 +1,1 @@\n-x\n+y"

/-- Collaborator oracles for the attempt-2 run: valid repo, generation
succeeds, native `git apply` succeeds. -/
def c1deps : RouteDeps :=
  ⟨["f1"], true, "", c1patch, ⟨true, "", " M f1"⟩,
    ⟨[("/repo/f1", "x")], ["/repo", "/repo/.git"]⟩, true, "abc123", "", true, ""⟩

/-- A hunk body containing the unprefixed non-empty line `foo`. -/
def c2patch : String := "--- a/f\n+++ b/f\n@@ -1,2 +1,2 @@\n a\nfoo\n b"

/-- A patch whose file header names `../escape.txt`. -/
def c3patch : String :=
  "--- a/../escape.txt\n+++ b/../escape.txt\n@@ -1,1 +1,1 @@\n-x\n+y"

/-- Store with the repository at `/repo` and a file outside it. -/
def c3fs : SimFS := ⟨[("/escape.txt", "x")], ["/repo", "/repo/.git"]⟩

/-- Native `git apply` fails, triggering the fuzzy fallback. -/
def c3git : GitWorld := ⟨false, "git apply failed", ""⟩

/-- File in which the hunk's second line occurs verbatim at 1-based 2. -/
def c4file : List String := ["bar", "foo"]

/-- Hunk whose first context line `zzz` is absent from the file while its
second context line `foo` occurs verbatim. -/
def c4seg : List String := [" zzz", " foo"]

/-- File with `function test() {` at 1-based line 12. -/
def c4wfile : List String :=
  List.replicate 11 "filler" ++ ["function test() \x7b", "  return x;", "\x7d"]

/-- Hunk anchored on `function test() {`. -/
def c4wseg : List String :=
  [" function test() \x7b", "-  return x;", "+  return x + 1;", " \x7d"]

/-- Hunk body with an empty line between two context lines. -/
def c5seg : List String := [" a", "", " b"]

/-- Target file of the C5 counterexample. -/
def c5file : List String := ["a", "b"]

/-- Witness hunk segment for the amended count property. -/
def c5wseg : List String := [" ctx1", "-gone", "+new1", "+new2", " ctx2"]

/-- Later-file lines that must not be counted. -/
def c5wtail : List String := ["+++ b/other", "@@", " zzz"]

/-- A 37-line file whose block `u,v` lives at 0-based 34 (1-based 35). -/
def c6file : List String := List.replicate 34 "x" ++ ["u", "v", "w"]

/-- Hunk expecting the block at 1-based 10 (0-based 9). -/
def c6hunk : ParsedHunk := ⟨10, 2, 10, 2, [" u", " v"]⟩

/-- The spec's concrete applicator scenario: file `a,b,c,d,e`. -/
def c7file : List String := ["a", "b", "c", "d", "e"]

/-- Context `b,c,d`, replacing `c` by `c2`. -/
def c7hunk : ParsedHunk := ⟨2, 3, 2, 3, [" b", "-c", "+c2", " d"]⟩

/-- Insertion patch: context `a`, add `n`. -/
def c8patch : String := "--- a/f.txt\n+++ b/f.txt\n@@ -1,1 +1,2 @@\n a\n+n"

/-- Store before the first application. -/
def c8fsOrig : SimFS := ⟨[("/repo/f.txt", "a\nb")], ["/repo"]⟩

/-- Store holding exactly the patch's after-state. -/
def c8fsApplied : SimFS := ⟨[("/repo/f.txt", "a\nn\nb")], ["/repo"]⟩

/-- Three failing round trips with distinguishable error strings. -/
def c9outcomes : Nat → AttemptOutcome := fun i =>
  if i = 0 then ⟨false, "ERR_ONE_7381"⟩
  else if i = 1 then ⟨false, "ERR_TWO_5512"⟩
  else ⟨false, "ERR_THREE_9257"⟩

/-- Two-file patch whose second file is missing from the store. -/
def c10patch : String :=
  "--- a/f1\n+++ b/f1\n@@ -1,1 +1,1 @@\n-x\n+y\n--- a/f2\n+++ b/f2\n@@ -1,1 +1,1 @@\n-x\n+y"

/-- Store containing `f1` but not `f2`. -/
def c10fs : SimFS := ⟨[("/repo/f1", "x")], ["/repo"]⟩

/-! # Theorems -/

/-! ### Shared helper lemmas -/

theorem applyLoop_snd (fl : List String) :
    ∀ (ls : List String) (idx : Int) (rem : List Nat) (adds : List String),
      (applyLoop fl ls idx rem adds).2 = adds.reverse ++ specEmit fl ls idx := by
  intro ls
  induction ls with
  | nil => intro idx rem adds; simp [applyLoop, specEmit]
  | cons l rest ih =>
    intro idx rem adds
    simp only [applyLoop, specEmit]
    by_cases h1 : jsStartsWith l " "
    · simp only [h1, if_pos]
      by_cases h2 : idx < (fl.length : Int)
      · simp only [h2, if_pos, reconcileContext]
        split <;> simp [ih]
      · simp [h2, ih, reconcileContext]
    · by_cases h2 : jsStartsWith l "-"
      · simp [h1, h2, ih]
      · by_cases h3 : jsStartsWith l "+"
        · simp [h1, h2, h3, ih]
        · simp [h1, h2, h3, ih]

theorem jsSplice_of_nonneg (l : List α) (start : Int) (del : Nat) (items : List α)
    (h : 0 ≤ start) :
    jsSplice l start del items =
      l.take start.toNat ++ items ++ l.drop (start.toNat + del) := by
  simp only [jsSplice]
  have hns : ¬ start < 0 := not_lt.mpr h
  simp only [hns, if_neg, not_false_iff]
  rcases le_or_lt start.toNat l.length with hle | hlt
  · rw [min_eq_left hle]
  · have h1 : l.length ≤ start.toNat := le_of_lt hlt
    rw [min_eq_right h1, List.take_length, List.take_of_length_le h1,
      List.drop_eq_nil_of_le (by omega), List.drop_eq_nil_of_le (by omega)]

/-! ### C7 — the applicator's walk and splice -/

/-- **C7**: for every located hunk the applicator emits each Context line
(preferring the real file's text when it differs only by whitespace),
skips each Removed line while advancing the cursor, emits each Added line
without advancing, and then replaces exactly `oldCount` lines at the match
position with the emitted lines (`specEmit` states that walk in the
claim's words). -/
theorem applicator_emits_and_splices_old_count (fl : List String) (h : ParsedHunk)
    (hpos : 0 ≤ findBestMatch fl h) :
    applyHunkToLines fl h =
      fl.take (findBestMatch fl h).toNat ++
        specEmit fl h.lines (findBestMatch fl h) ++
        fl.drop ((findBestMatch fl h).toNat + h.oldCount) := by
  have hdef : applyHunkToLines fl h =
      jsSplice fl (findBestMatch fl h) h.oldCount
        ((applyLoop fl h.lines (findBestMatch fl h) [] []).2) := rfl
  rw [hdef, applyLoop_snd, jsSplice_of_nonneg _ _ _ _ hpos]
  simp

/-- **C7 witness**: the spec's scenario — file `a,b,c,d,e`, hunk context
`b,c,d` replacing `c` with `c2` yields `a,b,c2,d,e`. -/
theorem applicator_emits_and_splices_old_count_witness :
    0 ≤ findBestMatch c7file c7hunk ∧
      applyHunkToLines c7file c7hunk = ["a", "b", "c2", "d", "e"] :=
  ⟨by decide,
    (applicator_emits_and_splices_old_count c7file c7hunk (by decide)).trans (by decide)⟩

/-! ### C1 — the attempt-2 request still runs native `git apply` -/

/-- **C1**: on the retry ladder's second attempt (the request carrying
`useFuzzy = true`), the route regenerates a patch and invokes the native
`git apply` collaborator; moreover the handler's behaviour is identical
for any value of `useFuzzy` — the flag is dropped at destructuring, so no
attempt bypasses the native tool in favour of the fuzzy pipeline. -/
theorem route_attempt2_runs_native_git_apply :
    ((routePOST attempt2Body c1deps).2.contains EngineStep.gitApply = true ∧
      (routePOST attempt2Body c1deps).2.contains EngineStep.genPatch = true) ∧
    ∀ (b : RouteBody) (d : RouteDeps), routePOST b d = routePOST { b with useFuzzy := true } d := by
  refine ⟨⟨by decide, by decide⟩, ?_⟩
  intro b d
  cases b
  rfl

/-! ### C2 — unprefixed non-empty hunk-body lines are dropped, not kept -/

/-- **C2 counterexample**: the hunk body line `foo` (non-empty, no `+`,
`-` or space prefix) is not appended to the hunk's line buffer — the
parser of `applyPatch.ts` discards it instead of keeping it as context. -/
theorem parse_drops_unprefixed_line_cx :
    parsePatch c2patch = [⟨"f", [⟨1, 2, 1, 2, [" a", " b"]⟩]⟩] ∧
    ((parsePatch c2patch).all
      (fun f => f.hunks.all
        (fun h => h.lines.all (fun l => !(l = "foo" || l = " foo"))))) = true :=
  ⟨by decide, by decide⟩

/-- **C2 amended**: every line the parser stores in a hunk's buffer begins
with `+`, `-` or a space, or is empty; non-empty unprefixed lines are
skipped (the space-prefixing tolerance lives upstream, in
`injectHunkLineNumbers`). -/
theorem parse_hunk_buffer_only_prefixed_or_empty (p : String) :
    ∀ f ∈ parsePatch p, ∀ h ∈ f.hunks, ∀ l ∈ h.lines, lineOK l := by
  have hflush : ∀ cf ch acc, (∀ f ∈ acc, fileOK f) →
      (∀ f, cf = some f → fileOK f) → (∀ h, ch = some h → hunkOK h) →
      ∀ f ∈ flushPF cf ch acc, fileOK f := by
    intro cf ch acc hacc hcf hch f hf
    match cf, ch with
    | some f0, some h0 =>
      simp only [flushPF] at hf
      rcases List.mem_cons.mp hf with rfl | hmem
      · intro h hh
        rcases List.mem_append.mp hh with hh | hh
        · exact hcf f0 rfl h hh
        · rcases List.mem_singleton.mp hh with rfl
          exact hch _ rfl
      · exact hacc f hmem
    | some f0, none =>
      simp only [flushPF] at hf
      rcases List.mem_cons.mp hf with rfl | hmem
      · exact hcf _ rfl
      · exact hacc f hmem
    | none, _ =>
      simp only [flushPF] at hf
      exact hacc f hf
  have hpush : ∀ cf ch, (∀ f, cf = some f → fileOK f) →
      (∀ h, ch = some h → hunkOK h) →
      ∀ f, pushHunk cf ch = some f → fileOK f := by
    intro cf ch hcf hch f hf
    match cf, ch with
    | some f0, some h0 =>
      simp only [pushHunk] at hf
      injection hf with hf
      subst hf
      intro h hh
      rcases List.mem_append.mp hh with hh | hh
      · exact hcf f0 rfl h hh
      · rcases List.mem_singleton.mp hh with rfl
        exact hch _ rfl
    | some f0, none =>
      simp only [pushHunk] at hf
      exact hcf f hf
    | none, _ =>
      simp only [pushHunk] at hf
      exact hcf f hf
  have main : ∀ (lines : List String) cf ch acc,
      (∀ f ∈ acc, fileOK f) → (∀ f, cf = some f → fileOK f) →
      (∀ h, ch = some h → hunkOK h) →
      ∀ f ∈ parsePatchLoop lines cf ch acc, fileOK f := by
    intro lines
    induction lines with
    | nil =>
      intro cf ch acc hacc hcf hch f hf
      simp only [parsePatchLoop] at hf
      rw [List.mem_reverse] at hf
      exact hflush cf ch acc hacc hcf hch f hf
    | cons line rest ih =>
      intro cf ch acc hacc hcf hch
      simp only [parsePatchLoop]
      by_cases h1 : jsStartsWith line "--- a/" = true
      · rw [if_pos h1]
        refine ih _ _ _ (hflush cf ch acc hacc hcf hch) ?_ ?_
        · intro f hf
          injection hf with hf
          subst hf
          intro h hh
          simp at hh
        · intro h hh
          simp at hh
      · rw [if_neg h1]
        by_cases h2 : jsStartsWith line "+++ b/" = true
        · rw [if_pos h2]
          exact ih _ _ _ hacc hcf hch
        · rw [if_neg h2]
          cases hph : parseHunkHeader line with
          | some v =>
            obtain ⟨os, oc, ns, nc⟩ := v
            refine ih _ _ _ hacc (hpush cf ch hcf hch) ?_
            intro h hh
            injection hh with hh
            subst hh
            intro l hl
            simp at hl
          | none =>
            by_cases h3 : (ch.isSome &&
                (jsStartsWith line "+" || jsStartsWith line "-" ||
                  jsStartsWith line " " || line = "")) = true
            · rw [if_pos h3]
              refine ih _ _ _ hacc hcf ?_
              intro h hh l hl
              match hch2 : ch with
              | some h0 =>
                simp only [Option.map] at hh
                injection hh with hh
                subst hh
                rcases List.mem_append.mp hl with hl | hl
                · exact hch h0 rfl l hl
                · rcases List.mem_singleton.mp hl with rfl
                  simp only [Option.isSome_some, Bool.true_and, Bool.or_eq_true,
                    decide_eq_true_eq] at h3
                  rcases h3 with ((ha | hb) | hc) | hd
                  · exact Or.inl ha
                  · exact Or.inr (Or.inl hb)
                  · exact Or.inr (Or.inr (Or.inl hc))
                  · exact Or.inr (Or.inr (Or.inr hd))
              | none =>
                simp at hh
            · rw [if_neg h3]
              exact ih _ _ _ hacc hcf hch
  exact main (splitLines p) none none [] (by simp) (by simp) (by simp)

/-- **C2 amended witness**: applied to the concrete patch of the
counterexample at its stored context line `" a"`. -/
theorem parse_hunk_buffer_only_prefixed_or_empty_witness :
    (⟨"f", [⟨1, 2, 1, 2, [" a", " b"]⟩]⟩ : ParsedFilePatch) ∈ parsePatch c2patch ∧
    (jsStartsWith " a" "+" = true ∨ jsStartsWith " a" "-" = true ∨
      jsStartsWith " a" " " = true ∨ " a" = "") :=
  ⟨by decide,
    parse_hunk_buffer_only_prefixed_or_empty c2patch
      ⟨"f", [⟨1, 2, 1, 2, [" a", " b"]⟩]⟩ (by decide)
      ⟨1, 2, 1, 2, [" a", " b"]⟩ (by decide) " a" (by decide)⟩

/-! ### C3 — the fuzzy fallback escapes the repository root -/

/-- **C3**: with the patch naming `../escape.txt`, the engine's traversal
check (which runs on the already-sanitised path) passes, native apply
fails, and the fuzzy fallback — which joins the *raw* parsed path under
the root — writes `/escape.txt`, a path outside `/repo`, and reports
success. -/
theorem fuzzy_fallback_writes_outside_repo_root :
    (applyPatchM c3git c3fs "/repo" c3patch).trace.contains
      (EngineStep.fileWrite "/escape.txt") = true ∧
    underRoot "/repo" "/escape.txt" = false ∧
    fsLookup (applyPatchM c3git c3fs "/repo" c3patch).fs "/escape.txt" = some "y" ∧
    (applyPatchM c3git c3fs "/repo" c3patch).result.success = true :=
  ⟨by decide, by decide, by decide, by decide⟩

/-! ### C8 — re-applying an applied patch is not a no-op -/

/-- **C8 counterexample**: `c8fsApplied` holds exactly the after-state of
the insertion patch (first conjunct); applying the patch a second time
reports success yet writes `a,n,n,b`, which differs from the after-state
`a,n,b` — second application both succeeds and corrupts. -/
theorem reapply_duplicates_insertion_cx :
    fsLookup (applyPatchFuzzy "/repo" c8patch c8fsOrig).fs "/repo/f.txt" = some "a\nn\nb" ∧
    fsLookup c8fsApplied "/repo/f.txt" = some "a\nn\nb" ∧
    (applyPatchFuzzy "/repo" c8patch c8fsApplied).result.success = true ∧
    fsLookup (applyPatchFuzzy "/repo" c8patch c8fsApplied).fs "/repo/f.txt" =
      some "a\nn\nn\nb" ∧
    ("a\nn\nn\nb" : String) ≠ "a\nn\nb" :=
  ⟨by decide, by decide, by decide, by decide, by decide⟩

/-! ### C9 — what the exhaustion branch actually surfaces -/

/-- **C9 counterexample**: after three failures with errors
`ERR_ONE_7381`, `ERR_TWO_5512`, `ERR_THREE_9257`, the terminal-failure
artifacts (exhaustion logs, step thought, state error, history error)
contain neither of the first two tiers' error strings, and the recorded
history entry carries an empty file list — not the patch's files. -/
theorem terminal_failure_missing_tier_errors_and_files_cx :
    (runRetryLoop c9outcomes).exhaustion.isSome = true ∧
    (terminalSurfaced ((runRetryLoop c9outcomes).exhaustion.getD default)).all
      (fun l => !subOccurs "ERR_ONE_7381" l) = true ∧
    (terminalSurfaced ((runRetryLoop c9outcomes).exhaustion.getD default)).all
      (fun l => !subOccurs "ERR_TWO_5512" l) = true ∧
    ((runRetryLoop c9outcomes).exhaustion.getD default).historyFiles = [] :=
  ⟨by decide, by decide, by decide, by decide⟩

/-! ### C4 — counterexample to anchoring on the first *matching* line -/

/-- **C4 counterexample**: the hunk `[" zzz", " foo"]` contains the
context line `foo` verbatim at 1-based position 2 of the file, yet the
synthesiser anchors on the hunk's *first* context/removed line `zzz`,
finds no match, and falls back to `oldStart = 1` instead of 2. -/
theorem synth_anchor_skips_unmatched_first_line_cx :
    synthesizeHeader c4file c4seg = mkHunkHeader 1 2 2 ∧
    claimC4oldStart c4file c4seg = some 2 ∧ (1 : Nat) ≠ 2 :=
  ⟨by decide, by decide, by decide⟩

/-! ### C5 — counterexample to counting every Context line -/

/-- **C5 counterexample**: the hunk body `[" a", "", " b"]` has three
context lines under the spec's classification (the empty line has no
prefix, hence context), but the synthesised header counts only 2 — empty
body lines are skipped by the tally. -/
theorem synth_counts_skip_empty_lines_cx :
    synthesizeHeader c5file c5seg = mkHunkHeader 1 2 2 ∧
    c5seg.countP (fun l => !jsStartsWith l "+") = 3 ∧
    c5seg.countP (fun l => !jsStartsWith l "-") = 3 ∧ (2 : Nat) ≠ 3 :=
  ⟨by decide, by decide, by decide, by decide⟩

/-! ### C4/C5 — what header synthesis actually computes -/

theorem tally_keeps_anchor (ls : List String) :
    ∀ (o n : Nat) (c : String), c ≠ "" →
      ((ls.foldl tallyStep (o, n, some c)).2.2) = some c := by
  induction ls with
  | nil => intro o n c _; rfl
  | cons l rest ih =>
    intro o n c hc
    rw [List.foldl_cons]
    simp only [tallyStep]
    have hset : ∀ t, setAnchor (some c) t = some c := fun t => by
      simp only [setAnchor, Option.getD_some]
      rw [if_neg hc]
    by_cases b1 : jsStartsWith l "-" = true ∧ ¬ jsStartsWith l "---" = true
    · rw [if_pos b1, hset]
      exact ih _ _ c hc
    · rw [if_neg b1]
      by_cases b2 : jsStartsWith l "+" = true ∧ ¬ jsStartsWith l "+++" = true
      · rw [if_pos b2]
        exact ih _ _ c hc
      · rw [if_neg b2]
        by_cases b3 : jsStartsWith l " " = true
        · rw [if_pos b3, hset]
          exact ih _ _ c hc
        · rw [if_neg b3]
          by_cases b4 : jsTrim l ≠ ""
          · rw [if_pos b4, hset]
            exact ih _ _ c hc
          · rw [if_neg b4]
            exact ih _ _ c hc

theorem orElse_some_absorb (x : Option String) (g : Unit → Option String) :
    ((x.orElse (fun _ => some "")).orElse g) = x.orElse (fun _ => some "") := by
  cases x <;> rfl

theorem tally_anchor_falsy (ls : List String) :
    ∀ (o n : Nat) (c0 : Option String), c0.getD "" = "" →
      ((ls.foldl tallyStep (o, n, c0)).2.2) =
        (firstAnchorText ls).orElse (fun _ => c0) := by
  induction ls with
  | nil =>
    intro o n c0 _
    cases c0 <;> rfl
  | cons l rest ih =>
    intro o n c0 hc0
    rw [List.foldl_cons]
    simp only [tallyStep]
    unfold firstAnchorText
    have hset : ∀ t, setAnchor c0 t = some t := fun t => by
      simp only [setAnchor]
      rw [if_pos hc0]
    by_cases b1 : jsStartsWith l "-" = true ∧ ¬ jsStartsWith l "---" = true
    · rw [if_pos b1, if_pos b1, hset]
      by_cases hd : l.drop 1 = ""
      · rw [if_pos hd, hd, ih _ _ (some "") rfl, orElse_some_absorb]
      · rw [if_neg hd, tally_keeps_anchor rest _ _ _ hd]
        rfl
    · rw [if_neg b1, if_neg b1]
      by_cases b2 : jsStartsWith l "+" = true ∧ ¬ jsStartsWith l "+++" = true
      · rw [if_pos b2, if_pos b2]
        exact ih _ _ c0 hc0
      · rw [if_neg b2, if_neg b2]
        by_cases b3 : jsStartsWith l " " = true
        · rw [if_pos b3, if_pos b3, hset]
          by_cases hd : l.drop 1 = ""
          · rw [if_pos hd, hd, ih _ _ (some "") rfl, orElse_some_absorb]
          · rw [if_neg hd, tally_keeps_anchor rest _ _ _ hd]
            rfl
        · rw [if_neg b3, if_neg b3]
          by_cases b4 : jsTrim l ≠ ""
          · rw [if_pos b4, if_pos b4, hset]
            have hl : l ≠ "" := by
              intro he
              exact b4 (by rw [he]; rfl)
            rw [tally_keeps_anchor rest _ _ _ hl]
            rfl
          · rw [if_neg b4, if_neg b4]
            exact ih _ _ c0 hc0

theorem tally_anchor (ls : List String) :
    ∀ (o n : Nat), ((ls.foldl tallyStep (o, n, none)).2.2) = firstAnchorText ls := by
  intro o n
  rw [tally_anchor_falsy ls o n none rfl]
  cases h : firstAnchorText ls <;> rfl

theorem tally_old_count (ls : List String) :
    ∀ (st : Nat × Nat × Option String),
      (ls.foldl tallyStep st).1 = st.1 + ls.countP isOldCounted := by
  induction ls with
  | nil => intro st; simp
  | cons l rest ih =>
    intro st
    obtain ⟨o, n, c⟩ := st
    rw [List.foldl_cons, ih, List.countP_cons]
    simp only [tallyStep]
    unfold isOldCounted
    by_cases b1 : jsStartsWith l "-" = true <;>
      by_cases b2 : jsStartsWith l "---" = true <;>
        by_cases b3 : jsStartsWith l "+" = true <;>
          by_cases b4 : jsStartsWith l "+++" = true <;>
            by_cases b5 : jsStartsWith l " " = true <;>
              by_cases b6 : jsTrim l = "" <;>
                simp [b1, b2, b3, b4, b5, b6] <;> omega

theorem tally_new_count (ls : List String) :
    ∀ (st : Nat × Nat × Option String),
      (ls.foldl tallyStep st).2.1 = st.2.1 + ls.countP isNewCounted := by
  induction ls with
  | nil => intro st; simp
  | cons l rest ih =>
    intro st
    obtain ⟨o, n, c⟩ := st
    rw [List.foldl_cons, ih, List.countP_cons]
    simp only [tallyStep]
    unfold isNewCounted
    by_cases b1 : jsStartsWith l "-" = true <;>
      by_cases b2 : jsStartsWith l "---" = true <;>
        by_cases b3 : jsStartsWith l "+" = true <;>
          by_cases b4 : jsStartsWith l "+++" = true <;>
            by_cases b5 : jsStartsWith l " " = true <;>
              by_cases b6 : jsTrim l = "" <;>
                simp [b1, b2, b3, b4, b5, b6] <;> omega

theorem collect_stops_at_boundary (seg tail : List String) (b : String)
    (hseg : ∀ l ∈ seg, isHunkBoundary l = false) (hb : isHunkBoundary b = true) :
    collectHunkLines (seg ++ b :: tail) = seg := by
  unfold collectHunkLines
  induction seg with
  | nil => simp [List.takeWhile_cons, hb]
  | cons x xs ih =>
    have hx : isHunkBoundary x = false := hseg x (List.mem_cons_self x xs)
    simp only [List.cons_append, List.takeWhile_cons, hx, Bool.not_false, if_pos]
    rw [ih (fun l hl => hseg l (List.mem_cons_of_mem x hl))]

/-- **C4 amended**: header synthesis anchors on the hunk's first
Context-or-Removed line *with non-empty text*, matched or not — JS
truthiness lets an empty-text candidate (bare `-`, lone space line) be
overwritten by the next candidate, and an empty anchor skips the file
search. When the effective anchor has an exact-or-trimmed match whose
first index is `i`, the synthesised header is
`@@ -(i+1),oldCount +(i+1),newCount @@` — in particular `newStart` equals
`oldStart`. -/
theorem synth_anchor_first_context_or_removed_line (fl rest : List String)
    (c : String) (i : Nat)
    (hc : firstAnchorText (collectHunkLines rest) = some c)
    (hcne : c ≠ "")
    (hfl : 0 < fl.length)
    (hidx : fl.findIdx? (fun x => x = c || jsTrim x = jsTrim c) = some i) :
    synthesizeHeader fl rest =
      mkHunkHeader (i + 1) (tallyHunkLines (collectHunkLines rest)).1
        (tallyHunkLines (collectHunkLines rest)).2.1 := by
  simp only [synthesizeHeader, tallyHunkLines]
  rw [tally_anchor, hc]
  simp only [synthStartLine]
  rw [if_pos ⟨hcne, hfl⟩, hidx]

/-- **C4 amended witness**: the spec's scenario — context line
`function test() {` at 1-based line 12 yields `oldStart = newStart = 12`. -/
theorem synth_anchor_first_context_or_removed_line_witness :
    firstAnchorText (collectHunkLines c4wseg) = some "function test() \x7b" ∧
    ("function test() \x7b" : String) ≠ "" ∧
    0 < c4wfile.length ∧
    c4wfile.findIdx?
      (fun x => x = "function test() \x7b" || jsTrim x = jsTrim "function test() \x7b") =
      some 11 ∧
    synthesizeHeader c4wfile c4wseg = mkHunkHeader 12 3 3 :=
  ⟨by decide, by decide, by decide, by decide,
    (synth_anchor_first_context_or_removed_line c4wfile c4wseg
      "function test() \x7b" 11 (by decide) (by decide) (by decide)
      (by decide)).trans (by decide)⟩

/-- **C5 amended**: the synthesised counts are per-segment tallies that
stop at the next `@@` / `--- a/` / `+++ b/` boundary, so lines of later
hunks or files are never counted; but `oldCount` counts only the
non-empty context lines plus removed lines, and `newCount` only the
non-empty context lines plus added lines — empty body lines are not
counted (though they are later emitted as context). -/
theorem synth_counts_current_hunk_segment_only (fl seg tail : List String) (b : String)
    (hseg : ∀ l ∈ seg, isHunkBoundary l = false) (hb : isHunkBoundary b = true) :
    synthesizeHeader fl (seg ++ b :: tail) =
      mkHunkHeader (synthStartLine fl (firstAnchorText seg))
        (seg.countP isOldCounted) (seg.countP isNewCounted) := by
  simp only [synthesizeHeader, tallyHunkLines]
  rw [collect_stops_at_boundary seg tail b hseg hb, tally_old_count,
    tally_new_count, tally_anchor]
  simp

/-- **C5 amended witness**: a hunk of context/removed/added lines followed
by a later-file header; the counts are 3/4 and ignore the trailing
lines. -/
theorem synth_counts_current_hunk_segment_only_witness :
    (∀ l ∈ c5wseg, isHunkBoundary l = false) ∧
    isHunkBoundary "+++ b/other" = true ∧
    synthesizeHeader ["ctx1", "ctx2"] (c5wseg ++ "+++ b/other" :: ["@@", " zzz"]) =
      mkHunkHeader 1 3 4 :=
  ⟨by decide, by decide,
    (synth_counts_current_hunk_segment_only ["ctx1", "ctx2"] c5wseg ["@@", " zzz"]
      "+++ b/other" (by decide) (by decide)).trans (by decide)⟩

/-! ### C8/C10 — behaviour of the direct fuzzy applier over the store -/

theorem isSome_map_aux {α β : Type} (f : α → β) (o : Option α) :
    (o.map f).isSome = o.isSome := by cases o <;> rfl

theorem fsLookup_fsWrite_self (fs : SimFS) (p c : String) :
    fsLookup (fsWrite fs p c) p = some c := by
  unfold fsLookup fsWrite
  simp [List.find?]

theorem fsExists_mono (fs : SimFS) (p c q : String) (h : fsExists fs q = true) :
    fsExists (fsWrite fs p c) q = true := by
  unfold fsExists fsLookup at h
  unfold fsExists fsLookup fsWrite
  simp only [Bool.or_eq_true, isSome_map_aux] at h ⊢
  rcases h with h | h
  · left
    rw [List.find?_isSome] at h ⊢
    obtain ⟨e, he, hq⟩ := h
    by_cases hpq : e.1 = p
    · refine ⟨(p, c), List.mem_cons_self _ _, ?_⟩
      simp only [decide_eq_true_eq] at hq ⊢
      rw [← hpq, hq]
    · exact ⟨e, List.mem_cons_of_mem _ (List.mem_filter.mpr ⟨he, by simpa using hpq⟩), hq⟩
  · right; exact h

theorem fsLookup_isSome_mono (fs : SimFS) (p c q : String)
    (h : (fsLookup fs q).isSome = true) :
    (fsLookup (fsWrite fs p c) q).isSome = true := by
  unfold fsLookup at h
  unfold fsLookup fsWrite
  simp only [isSome_map_aux] at h ⊢
  rw [List.find?_isSome] at h ⊢
  obtain ⟨e, he, hq⟩ := h
  by_cases hpq : e.1 = p
  · refine ⟨(p, c), List.mem_cons_self _ _, ?_⟩
    simp only [decide_eq_true_eq] at hq ⊢
    rw [← hpq, hq]
  · exact ⟨e, List.mem_cons_of_mem _ (List.mem_filter.mpr ⟨he, by simpa using hpq⟩), hq⟩

theorem tryPos_inl_nonneg (fl sl : List String) (pos : Int) (st st2 : ℚ × Int)
    (hst : 0 ≤ st.2) (h : tryPos fl sl pos st = Sum.inl st2) : 0 ≤ st2.2 := by
  unfold tryPos at h
  by_cases h1 : (decide (pos < 0) ||
      decide (pos > (fl.length : Int) - (sl.length : Int))) = true
  · rw [if_pos h1] at h
    injection h with h
    subst h
    exact hst
  · rw [if_neg h1] at h
    have hpos : 0 ≤ pos := by
      simp only [Bool.or_eq_true, decide_eq_true_eq, not_or] at h1
      omega
    by_cases h2 : calculateMatchScore fl sl pos = (sl.length : ℚ)
    · rw [if_pos h2] at h
      exact absurd h (by simp)
    · rw [if_neg h2] at h
      by_cases h3 : st.1 < calculateMatchScore fl sl pos
      · rw [if_pos h3] at h
        injection h with h
        subst h
        exact hpos
      · rw [if_neg h3] at h
        injection h with h
        subst h
        exact hst

theorem tryPos_inr_nonneg (fl sl : List String) (pos : Int) (st : ℚ × Int) (q : Int)
    (h : tryPos fl sl pos st = Sum.inr q) : 0 ≤ q := by
  unfold tryPos at h
  by_cases h1 : (decide (pos < 0) ||
      decide (pos > (fl.length : Int) - (sl.length : Int))) = true
  · rw [if_pos h1] at h
    exact absurd h (by simp)
  · rw [if_neg h1] at h
    have hpos : 0 ≤ pos := by
      simp only [Bool.or_eq_true, decide_eq_true_eq, not_or] at h1
      omega
    by_cases h2 : calculateMatchScore fl sl pos = (sl.length : ℚ)
    · rw [if_pos h2] at h
      injection h with h
      subst h
      exact hpos
    · rw [if_neg h2] at h
      by_cases h3 : st.1 < calculateMatchScore fl sl pos
      · rw [if_pos h3] at h
        exact absurd h (by simp)
      · rw [if_neg h3] at h
        exact absurd h (by simp)

theorem fuzzyScanGo_nonneg (fl sl : List String) (e : Int) (he : 0 ≤ e) :
    ∀ (offs : List Nat) (st : ℚ × Int), 0 ≤ st.2 →
      0 ≤ fuzzyScanGo fl sl e offs st := by
  intro offs
  induction offs with
  | nil =>
    intro st hst
    simp only [fuzzyScanGo]
    split_ifs
    · exact hst
    · exact he
  | cons k rest ih =>
    intro st hst
    have hstep : fuzzyScanGo fl sl e (k :: rest) st =
        (match tryPos fl sl (e - (k : Int)) st with
         | Sum.inr q => q
         | Sum.inl st1 =>
           match tryPos fl sl (e + (k : Int)) st1 with
           | Sum.inr q => q
           | Sum.inl st2 => fuzzyScanGo fl sl e rest st2) := rfl
    rw [hstep]
    rcases h1 : tryPos fl sl (e - (k : Int)) st with st1 | q
    · show (0 : Int) ≤ (match tryPos fl sl (e + (k : Int)) st1 with
                | Sum.inr q => q
                | Sum.inl st2 => fuzzyScanGo fl sl e rest st2)
      rcases h2 : tryPos fl sl (e + (k : Int)) st1 with st2 | q
      · exact ih st2 (tryPos_inl_nonneg fl sl _ st1 st2
          (tryPos_inl_nonneg fl sl _ st st1 hst h1) h2)
      · exact tryPos_inr_nonneg fl sl _ st1 q h2
    · exact tryPos_inr_nonneg fl sl _ st q h1

/-- Hunks whose header declares a 1-based `oldStart ≥ 1` (every header the
synthesiser emits has this shape) always locate at a nonnegative
position; only an explicit `@@ -0,... @@` header can produce the `-1`
fallback, on which the source's applicator would fault. -/
theorem findBestMatch_nonneg (fl : List String) (h : ParsedHunk)
    (h1 : 1 ≤ h.oldStart) : 0 ≤ findBestMatch fl h := by
  have hdef : findBestMatch fl h =
      (if (buildSearchLines h.lines).isEmpty then (h.oldStart : Int) - 1
       else if matchesAt fl (buildSearchLines h.lines) ((h.oldStart : Int) - 1) then
         (h.oldStart : Int) - 1
       else fuzzyScanGo fl (buildSearchLines h.lines) ((h.oldStart : Int) - 1)
         (List.range 51) (-1, (h.oldStart : Int) - 1)) := rfl
  have he : (0 : Int) ≤ (h.oldStart : Int) - 1 := by omega
  rw [hdef]
  split_ifs
  · exact he
  · exact he
  · exact fuzzyScanGo_nonneg fl _ _ he (List.range 51) (-1, (h.oldStart : Int) - 1) he

/-- **C8 amended**: the fuzzy applier performs no already-applied
detection — whenever every file named in the patch maps to a readable
file in the store (not merely an `existsSync` hit, which also accepts
directories the subsequent read would fault on) and every hunk declares
`oldStart ≥ 1` (ruling out the `@@ -0,... @@` negative-cursor fault
path; see `findBestMatch_nonneg`), it reports success — the duplication
counterexample shows the rewritten content can then differ from the
after-state. -/
theorem fuzzy_apply_reports_success_when_files_exist
    (repoPath patch : String) (fs : SimFS)
    (hfile : ∀ fp ∈ parsePatch patch,
      (fsLookup fs (pathJoin repoPath fp.filePath)).isSome = true)
    (_hstart : ∀ fp ∈ parsePatch patch, ∀ hk ∈ fp.hunks, 1 ≤ hk.oldStart) :
    (applyPatchFuzzy repoPath patch fs).result.success = true := by
  have main : ∀ (l : List ParsedFilePatch) (fs : SimFS) (tr : List EngineStep)
      (mods : List String),
      (∀ fp ∈ l, (fsLookup fs (pathJoin repoPath fp.filePath)).isSome = true) →
      (applyPatchFuzzyGo repoPath l fs tr mods).result.success = true := by
    intro l
    induction l with
    | nil => intro fs tr mods _; rfl
    | cons fp rest ih =>
      intro fs tr mods hall
      simp only [applyPatchFuzzyGo]
      rw [if_pos (show fsExists fs (pathJoin repoPath fp.filePath) = true from by
        unfold fsExists
        rw [hall fp (List.mem_cons_self _ _)]
        rfl)]
      exact ih _ _ _
        (fun fp2 h2 => fsLookup_isSome_mono _ _ _ _ (hall fp2 (List.mem_cons_of_mem _ h2)))
  exact main (parsePatch patch) fs [] [] hfile

/-- **C8 amended witness**: re-applying the insertion patch (a readable
file, `oldStart = 1`) to its own after-state succeeds. -/
theorem fuzzy_apply_reports_success_when_files_exist_witness :
    (∀ fp ∈ parsePatch c8patch,
      (fsLookup c8fsApplied (pathJoin "/repo" fp.filePath)).isSome = true) ∧
    (∀ fp ∈ parsePatch c8patch, ∀ hk ∈ fp.hunks, 1 ≤ hk.oldStart) ∧
    (applyPatchFuzzy "/repo" c8patch c8fsApplied).result.success = true :=
  ⟨by decide, by decide,
    fuzzy_apply_reports_success_when_files_exist "/repo" c8patch c8fsApplied
      (by decide) (by decide)⟩

/-- **C10**: when the first file of a two-file patch exists but the second
does not, the fuzzy applier returns `success = false` with
`modifiedFiles = []` and a `File not found` error, even though the first
file has already been rewritten on disk with its patched content — the
failure neither rolls back nor reports that write. -/
theorem fuzzy_failure_keeps_earlier_writes_unreported
    (repoPath patch : String) (fs : SimFS) (f1 f2 : ParsedFilePatch)
    (hp : parsePatch patch = [f1, f2])
    (h1 : fsExists fs (pathJoin repoPath f1.filePath) = true)
    (h2 : fsExists (fsWrite fs (pathJoin repoPath f1.filePath)
        (fuzzyFileOutput fs repoPath f1)) (pathJoin repoPath f2.filePath) = false) :
    (applyPatchFuzzy repoPath patch fs).result.success = false ∧
    (applyPatchFuzzy repoPath patch fs).result.modifiedFiles = [] ∧
    (applyPatchFuzzy repoPath patch fs).result.error =
      some ("File not found: " ++ f2.filePath) ∧
    fsLookup (applyPatchFuzzy repoPath patch fs).fs (pathJoin repoPath f1.filePath) =
      some (fuzzyFileOutput fs repoPath f1) := by
  unfold applyPatchFuzzy
  rw [hp]
  simp only [applyPatchFuzzyGo]
  rw [if_pos h1, if_neg (by rw [h2]; exact Bool.false_ne_true)]
  exact ⟨rfl, rfl, rfl, fsLookup_fsWrite_self _ _ _⟩

/-- **C10 witness**: the two-file patch over a store holding only `f1`:
`f1` ends up rewritten to `y`, the result reports no modified files. -/
theorem fuzzy_failure_keeps_earlier_writes_unreported_witness :
    parsePatch c10patch =
      [⟨"f1", [⟨1, 1, 1, 1, ["-x", "+y"]⟩]⟩, ⟨"f2", [⟨1, 1, 1, 1, ["-x", "+y"]⟩]⟩] ∧
    (applyPatchFuzzy "/repo" c10patch c10fs).result.success = false ∧
    (applyPatchFuzzy "/repo" c10patch c10fs).result.modifiedFiles = [] ∧
    fsLookup (applyPatchFuzzy "/repo" c10patch c10fs).fs "/repo/f1" = some "y" :=
  ⟨by decide,
    (fuzzy_failure_keeps_earlier_writes_unreported "/repo" c10patch c10fs
      ⟨"f1", [⟨1, 1, 1, 1, ["-x", "+y"]⟩]⟩ ⟨"f2", [⟨1, 1, 1, 1, ["-x", "+y"]⟩]⟩
      (by decide) (by decide) (by decide)).1,
    (fuzzy_failure_keeps_earlier_writes_unreported "/repo" c10patch c10fs
      ⟨"f1", [⟨1, 1, 1, 1, ["-x", "+y"]⟩]⟩ ⟨"f2", [⟨1, 1, 1, 1, ["-x", "+y"]⟩]⟩
      (by decide) (by decide) (by decide)).2.1,
    by
      have h := (fuzzy_failure_keeps_earlier_writes_unreported "/repo" c10patch c10fs
        ⟨"f1", [⟨1, 1, 1, 1, ["-x", "+y"]⟩]⟩ ⟨"f2", [⟨1, 1, 1, 1, ["-x", "+y"]⟩]⟩
        (by decide) (by decide) (by decide)).2.2.2
      rw [show pathJoin "/repo" "f1" = "/repo/f1" from by decide] at h
      rw [h]
      decide⟩

/-! ### C9 — amended: what exhaustion does surface -/

/-- **C9 amended**: when all three attempts fail, the exhaustion branch
surfaces the checklist and the *last* attempt's error (step thought and
history entry), records an empty file list, and the earlier tiers' errors
appear only in the per-attempt warning logs. -/
theorem exhaustion_surfaces_checklist_and_last_error (outcomes : Nat → AttemptOutcome)
    (h0 : (outcomes 0).ok = false) (h1 : (outcomes 1).ok = false)
    (h2 : (outcomes 2).ok = false) :
    ∃ t, (runRetryLoop outcomes).exhaustion = some t ∧
      t.thought = "Failed to apply patch after 3 attempts. Manual intervention required. Last error: " ++
        (outcomes 2).error ∧
      t.historyFiles = [] ∧
      t.historyError = (outcomes 2).error ∧
      (∀ l ∈ exhaustionChecklist, l ∈ t.exhaustionLogs) ∧
      ("[WARN] Patch application failed (attempt 1/3): " ++ (outcomes 0).error) ∈
        (runRetryLoop outcomes).logs ∧
      ("[WARN] Patch application failed (attempt 2/3): " ++ (outcomes 1).error) ∈
        (runRetryLoop outcomes).logs := by
  simp only [runRetryLoop, retryGo, h0, h1, h2]
  norm_num
  refine ⟨fun l hl => Or.inr hl, ?_, ?_⟩
  · right; left; rfl
  · right; right; right; left; rfl

/-- **C9 amended witness**: the three concrete failing outcomes. -/
theorem exhaustion_surfaces_checklist_and_last_error_witness :
    (c9outcomes 0).ok = false ∧ (c9outcomes 1).ok = false ∧ (c9outcomes 2).ok = false ∧
    ∃ t, (runRetryLoop c9outcomes).exhaustion = some t ∧
      t.thought = "Failed to apply patch after 3 attempts. Manual intervention required. Last error: " ++
        (c9outcomes 2).error ∧
      t.historyFiles = [] ∧
      t.historyError = (c9outcomes 2).error ∧
      (∀ l ∈ exhaustionChecklist, l ∈ t.exhaustionLogs) ∧
      ("[WARN] Patch application failed (attempt 1/3): " ++ (c9outcomes 0).error) ∈
        (runRetryLoop c9outcomes).logs ∧
      ("[WARN] Patch application failed (attempt 2/3): " ++ (c9outcomes 1).error) ∈
        (runRetryLoop c9outcomes).logs :=
  ⟨by decide, by decide, by decide,
    exhaustion_surfaces_checklist_and_last_error c9outcomes
      (by decide) (by decide) (by decide)⟩

/-! ### C6 — the fuzzy locator finds a uniquely shifted block -/

theorem scoreFrom_le (fl : List String) :
    ∀ (sl : List String) (p : Nat), scoreFrom fl p sl ≤ (sl.length : ℚ) := by
  intro sl
  induction sl with
  | nil => intro p; simp [scoreFrom]
  | cons s rest ih =>
    intro p
    simp only [scoreFrom, List.length_cons]
    by_cases hp : fl.length ≤ p
    · rw [if_pos hp]
      push_cast
      positivity
    · rw [if_neg hp]
      have h1 := ih (p + 1)
      split_ifs with ha hb
      · push_cast
        linarith
      · push_cast
        linarith
      · push_cast
        linarith

theorem scoreFrom_eq_iff (fl : List String) :
    ∀ (sl : List String) (p : Nat), p + sl.length ≤ fl.length →
      (scoreFrom fl p sl = (sl.length : ℚ) ↔ matchesFrom fl p sl = true) := by
  intro sl
  induction sl with
  | nil => intro p hb; simp [scoreFrom, matchesFrom]
  | cons s rest ih =>
    intro p hb
    have hp : ¬ fl.length ≤ p := by
      simp only [List.length_cons] at hb
      omega
    have hrest := ih (p + 1) (by simp only [List.length_cons] at hb; omega)
    have hle := scoreFrom_le fl rest (p + 1)
    simp only [scoreFrom, matchesFrom, if_neg hp, List.length_cons]
    constructor
    · intro heq
      by_cases h1 : fl.getD p "" = s
      · rw [if_pos h1] at heq
        have hs : scoreFrom fl (p + 1) rest = (rest.length : ℚ) := by
          push_cast at heq ⊢
          linarith
        simp only [Bool.and_eq_true, decide_eq_true_eq]
        exact ⟨h1, hrest.mp hs⟩
      · rw [if_neg h1] at heq
        exfalso
        by_cases h2 : jsTrim (fl.getD p "") = jsTrim s
        · rw [if_pos h2] at heq
          push_cast at heq
          linarith
        · rw [if_neg h2] at heq
          push_cast at heq
          linarith
    · intro hm
      simp only [Bool.and_eq_true, decide_eq_true_eq] at hm
      rw [if_pos hm.1, hrest.mpr hm.2]
      push_cast
      ring

theorem matchesAt_elim (fl sl : List String) (pos : Int)
    (h : matchesAt fl sl pos = true) :
    0 ≤ pos ∧ pos + (sl.length : Int) ≤ (fl.length : Int) ∧
      matchesFrom fl pos.toNat sl = true := by
  unfold matchesAt at h
  split at h
  · exact absurd h (by simp)
  · next hc =>
    simp only [Bool.or_eq_true, decide_eq_true_eq, not_or] at hc
    push_neg at hc
    exact ⟨hc.1, hc.2, h⟩

theorem matchesAt_intro (fl sl : List String) (q : Nat)
    (hb : q + sl.length ≤ fl.length) (hm : matchesFrom fl q sl = true) :
    matchesAt fl sl (q : Int) = true := by
  unfold matchesAt
  have h1 : ¬ ((q : Int) < 0) := by omega
  have h2 : ¬ ((q : Int) + (sl.length : Int) > (fl.length : Int)) := by
    omega
  rw [if_neg (by simp [h1, h2])]
  have : ((q : Int)).toNat = q := rfl
  rw [this]
  exact hm

theorem tryPos_of_match (fl sl : List String) (pos : Int) (st : ℚ × Int)
    (h : matchesAt fl sl pos = true) :
    tryPos fl sl pos st = Sum.inr pos := by
  obtain ⟨h0, hb, hm⟩ := matchesAt_elim fl sl pos h
  unfold tryPos
  have hg1 : ¬ pos < 0 := by omega
  have hg2 : ¬ pos > (fl.length : Int) - (sl.length : Int) := by omega
  rw [if_neg (by simp [hg1, hg2])]
  have hscore : calculateMatchScore fl sl pos = (sl.length : ℚ) := by
    unfold calculateMatchScore
    refine (scoreFrom_eq_iff fl sl pos.toNat ?_).mpr hm
    omega
  rw [if_pos hscore]

theorem tryPos_of_not_match (fl sl : List String) (pos : Int) (st : ℚ × Int)
    (h : matchesAt fl sl pos = false) :
    ∃ st2, tryPos fl sl pos st = Sum.inl st2 := by
  unfold tryPos
  by_cases hg : (decide (pos < 0) ||
      decide (pos > (fl.length : Int) - (sl.length : Int))) = true
  · rw [if_pos hg]
    exact ⟨st, rfl⟩
  · rw [if_neg hg]
    simp only [Bool.or_eq_true, decide_eq_true_eq, not_or] at hg
    have hbm : matchesFrom fl pos.toNat sl = false := by
      cases hmf : matchesFrom fl pos.toNat sl
      · rfl
      · exfalso
        have hAt := matchesAt_intro fl sl pos.toNat (by omega) hmf
        rw [show ((pos.toNat : Nat) : Int) = pos from by omega] at hAt
        rw [hAt] at h
        exact Bool.false_ne_true h.symm
    have hscore : ¬ calculateMatchScore fl sl pos = (sl.length : ℚ) := by
      intro hcontra
      have hmf := (scoreFrom_eq_iff fl sl pos.toNat (by omega)).mp hcontra
      rw [hmf] at hbm
      exact Bool.false_ne_true hbm.symm
    rw [if_neg hscore]
    by_cases hlt : st.1 < calculateMatchScore fl sl pos
    · rw [if_pos hlt]
      exact ⟨_, rfl⟩
    · rw [if_neg hlt]
      exact ⟨st, rfl⟩

theorem fuzzyScanGo_hits (fl sl : List String) (e p : Int)
    (hmatch : matchesAt fl sl p = true)
    (huniq : ∀ q : Int, matchesAt fl sl q = true → q = p) :
    ∀ (offs : List Nat) (st : ℚ × Int), (p - e).natAbs ∈ offs →
      fuzzyScanGo fl sl e offs st = p := by
  intro offs
  induction offs with
  | nil =>
    intro st hmem
    exact absurd hmem (List.not_mem_nil _)
  | cons k rest ih =>
    intro st hmem
    have hstep : fuzzyScanGo fl sl e (k :: rest) st =
        (match tryPos fl sl (e - (k : Int)) st with
         | Sum.inr q => q
         | Sum.inl st1 =>
           match tryPos fl sl (e + (k : Int)) st1 with
           | Sum.inr q => q
           | Sum.inl st2 => fuzzyScanGo fl sl e rest st2) := rfl
    by_cases hk : k = (p - e).natAbs
    · subst hk
      by_cases hfirst : e - ((p - e).natAbs : Int) = p
      · rw [hstep, hfirst, tryPos_of_match fl sl p st hmatch]
      · have hmiss : matchesAt fl sl (e - ((p - e).natAbs : Int)) = false := by
          cases hx : matchesAt fl sl (e - ((p - e).natAbs : Int))
          · rfl
          · exact absurd (huniq _ hx) hfirst
        obtain ⟨st1, hst1⟩ := tryPos_of_not_match fl sl _ st hmiss
        have hsecond : e + ((p - e).natAbs : Int) = p := by
          rcases Int.natAbs_eq (p - e) with hpe | hpe
          · omega
          · omega
        rw [hstep, hst1]
        show (match tryPos fl sl (e + ((p - e).natAbs : Int)) st1 with
              | Sum.inr q => q
              | Sum.inl st2 => fuzzyScanGo fl sl e rest st2) = p
        rw [hsecond, tryPos_of_match fl sl p st1 hmatch]
    · have hmem2 : (p - e).natAbs ∈ rest := by
        rcases List.mem_cons.mp hmem with hmem | hmem
        · exact absurd hmem.symm hk
        · exact hmem
      have hm1 : matchesAt fl sl (e - (k : Int)) = false := by
        cases hx : matchesAt fl sl (e - (k : Int))
        · rfl
        · exfalso
          have := huniq _ hx
          apply hk
          omega
      have hm2 : matchesAt fl sl (e + (k : Int)) = false := by
        cases hx : matchesAt fl sl (e + (k : Int))
        · rfl
        · exfalso
          have := huniq _ hx
          apply hk
          omega
      obtain ⟨st1, hst1⟩ := tryPos_of_not_match fl sl _ st hm1
      obtain ⟨st2, hst2⟩ := tryPos_of_not_match fl sl _ st1 hm2
      rw [hstep, hst1]
      show (match tryPos fl sl (e + (k : Int)) st1 with
            | Sum.inr q => q
            | Sum.inl st2 => fuzzyScanGo fl sl e rest st2) = p
      rw [hst2]
      show fuzzyScanGo fl sl e rest st2 = p
      exact ih st2 hmem2

/-- **C6**: when the hunk's expected block (its Context+Removed lines)
occurs in the file at exactly one position `p`, shifted from the declared
position by at most 50 lines, `findBestMatch` returns that shifted
0-based position and its match score there equals the block length
(a perfect match). -/
theorem fuzzy_locator_returns_shifted_block_position
    (fl : List String) (h : ParsedHunk) (p : Nat)
    (hne : buildSearchLines h.lines ≠ [])
    (hmatch : matchesAt fl (buildSearchLines h.lines) (p : Int) = true)
    (huniq : ∀ q : Nat, q < fl.length →
      matchesAt fl (buildSearchLines h.lines) (q : Int) = true → q = p)
    (hdist : ((p : Int) - ((h.oldStart : Int) - 1)).natAbs ≤ 50) :
    findBestMatch fl h = (p : Int) ∧
      calculateMatchScore fl (buildSearchLines h.lines) (p : Int) =
        ((buildSearchLines h.lines).length : ℚ) := by
  have huniqInt : ∀ q : Int,
      matchesAt fl (buildSearchLines h.lines) q = true → q = (p : Int) := by
    intro q hq
    obtain ⟨h0, hb, hm⟩ := matchesAt_elim _ _ _ hq
    have hlen : (1 : Int) ≤ (buildSearchLines h.lines).length := by
      have := List.length_pos.mpr hne
      omega
    have hqlt : q.toNat < fl.length := by omega
    have hqcast : ((q.toNat : Nat) : Int) = q := by omega
    have := huniq q.toNat hqlt (by rw [hqcast]; exact hq)
    omega
  have hscore : calculateMatchScore fl (buildSearchLines h.lines) (p : Int) =
      ((buildSearchLines h.lines).length : ℚ) := by
    obtain ⟨h0, hb, hm⟩ := matchesAt_elim _ _ _ hmatch
    unfold calculateMatchScore
    refine (scoreFrom_eq_iff fl _ _ ?_).mpr hm
    omega
  refine ⟨?_, hscore⟩
  have hdef : findBestMatch fl h =
      (if (buildSearchLines h.lines).isEmpty then (h.oldStart : Int) - 1
       else if matchesAt fl (buildSearchLines h.lines) ((h.oldStart : Int) - 1) then
         (h.oldStart : Int) - 1
       else fuzzyScanGo fl (buildSearchLines h.lines) ((h.oldStart : Int) - 1)
         (List.range 51) (-1, (h.oldStart : Int) - 1)) := rfl
  rw [hdef, if_neg (by simp [List.isEmpty_iff, hne])]
  by_cases hexp : matchesAt fl (buildSearchLines h.lines) ((h.oldStart : Int) - 1) = true
  · rw [if_pos hexp]
    exact huniqInt _ hexp
  · rw [if_neg hexp]
    refine fuzzyScanGo_hits fl (buildSearchLines h.lines) ((h.oldStart : Int) - 1)
      (p : Int) hmatch huniqInt (List.range 51) _ ?_
    exact List.mem_range.mpr (by omega)

/-- **C6 witness**: the spec's scenario — a block expected at 1-based line
10 that lives at 0-based position 34 (1-based 35) is found at 34 with a
perfect score of 2. -/
theorem fuzzy_locator_returns_shifted_block_position_witness :
    buildSearchLines c6hunk.lines ≠ [] ∧
    matchesAt c6file (buildSearchLines c6hunk.lines) ((34 : Nat) : Int) = true ∧
    (∀ q : Nat, q < c6file.length →
      matchesAt c6file (buildSearchLines c6hunk.lines) (q : Int) = true → q = 34) ∧
    (((34 : Nat) : Int) - ((c6hunk.oldStart : Int) - 1)).natAbs ≤ 50 ∧
    findBestMatch c6file c6hunk = ((34 : Nat) : Int) ∧
    calculateMatchScore c6file (buildSearchLines c6hunk.lines) ((34 : Nat) : Int) =
      ((buildSearchLines c6hunk.lines).length : ℚ) :=
  ⟨by decide, by decide, by decide, by decide,
    (fuzzy_locator_returns_shifted_block_position c6file c6hunk 34
      (by decide) (by decide) (by decide) (by decide)).1,
    (fuzzy_locator_returns_shifted_block_position c6file c6hunk 34
      (by decide) (by decide) (by decide) (by decide)).2⟩

end BugSmith
